import Mathlib

/-!
Verification of the type-name lookup component (`type-name-lookup.ts`):
ancestor-chain acquisition, qualified-name composition, the bidirectional
name table and its lookup service.

Modelling conventions:
* A JS descriptor object is a `Descriptor` record; the `id` field models
  JS reference identity (two descriptor objects with equal fields are
  still distinct `Map` keys, so each object gets a unique `id`).
* A JS `Map` is an association list observed through `mapGet` / `mapHas`:
  `set` prepends and `get` returns the newest binding, which matches the
  observable get/has semantics of `Map`.
* A JS function that can throw (via `assert`) returns `Option`/`Except`;
  `none` / `.error` is the thrown assertion.
* JS strings are sequences of code units; string primitives used by the
  source (`startsWith(".")`, `substring(1)`, `join('.')`) are rendered on
  `String.data` character lists.
-/

/-- The descriptor kinds of the model: File, Message, Enum, Service and
the non-nameable leaves Field, Oneof, Method. -/
inductive DescKind where
  | file
  | message
  | enum
  | service
  | field
  | oneof
  | method
deriving DecidableEq, Repr

/-- A schema descriptor record: a kind tag, an optional local `name`, an
optional `package` (meaningful on File descriptors), and an `id` modelling
JS object identity. -/
structure Descriptor where
  kind : DescKind
  name : Option String
  package : Option String
  id : Nat
deriving DecidableEq, Repr

/-- Modelled from the spec: `isAnyTypeDescriptorProto` (declared in
`descriptor-info`, not part of the given sources) recognises the nameable
descriptors, exactly Message, Enum and Service. -/
def isAnyTypeDescriptorProto (d : Descriptor) : Bool :=
  d.kind = DescKind.message ∨ d.kind = DescKind.enum ∨ d.kind = DescKind.service

/-- Modelled from the spec: `FileDescriptorProto.is` recognises File
descriptors. -/
def isFileDescriptorProto (d : Descriptor) : Bool :=
  d.kind = DescKind.file

/-- JS `Map.set`: the newest binding wins; observed only through
`mapGet`/`mapHas`, prepending models in-place update faithfully. -/
def mapSet {α β : Type} (m : List (α × β)) (k : α) (v : β) : List (α × β) :=
  (k, v) :: m

/-- JS `Map.get`: the value of the newest binding of `k`, if any. -/
def mapGet {α β : Type} [DecidableEq α] (m : List (α × β)) (k : α) : Option β :=
  (m.find? (fun p => decide (p.1 = k))).map (fun p => p.2)

/-- JS `Map.has`. -/
def mapHas {α β : Type} [DecidableEq α] (m : List (α × β)) (k : α) : Bool :=
  (mapGet m k).isSome

/-- The name-collecting loop of `composeTypeName`: for each item read its
`name`, assert it is defined, and push it; `none` is the failed assert. -/
def collectNames : List Descriptor → Option (List String)
  | [] => some []
  | d :: ds =>
    match d.name with
    | none => none
    | some n =>
      match collectNames ds with
      | none => none
      | some ns => some (n :: ns)

/-- The package segments contributed by the file descriptor `first`:
`pkg` is a segment exactly when it is defined and non-empty
(`pkg !== undefined && pkg !== ''`). -/
def packageParts (first : Descriptor) : List String :=
  match first.package with
  | none => []
  | some p => if p = "" then [] else [p]

/-- `composeTypeName(descriptors)`: copy the list, `shift` the first
element, `pop` the last of the remainder, assert the first is a File and
the last is a nameable descriptor, then join the package (if non-empty)
with the local names of `[...mid, last]`.  `none` models a thrown
assert (`MalformedChain`). -/
def composeTypeName (descriptors : List Descriptor) : Option String :=
  match descriptors with
  | [] => none
  | first :: rest =>
    match rest.getLast? with
    | none => none
    | some last =>
      if isFileDescriptorProto first then
        if isAnyTypeDescriptorProto last then
          match collectNames (rest.dropLast ++ [last]) with
          | none => none
          | some names => some (String.intercalate "." (packageParts first ++ names))
        else none
      else none

/-- Failures of name-table construction: a malformed ancestor chain
(`composeTypeName` assert) or a duplicate composed name (the
`assert(!names.has(name))` in the constructor, which fires at `name`). -/
inductive BuildError where
  | malformedChain
  | duplicateName (name : String)
deriving DecidableEq, Repr

/-- A lookup failure of `resolveTypeName`: the assert message carries the
(normalized) name that could not be resolved. -/
inductive LookupError where
  | unresolvedName (name : String)
deriving DecidableEq, Repr

deriving instance DecidableEq for Except

/-- The name table: forward map (qualified name to descriptor) and
reverse map (descriptor to qualified name). -/
structure TypeNameLookup where
  names : List (String × Descriptor)
  reverse : List (Descriptor × String)
deriving DecidableEq, Repr

/-- One (descriptor, ancestors) pair of the constructor's input. -/
abbrev Entry := Descriptor × List Descriptor

/-- The constructor loop of `TypeNameLookup`: for each pair compose the
name from `[...ancestors, descriptor]`, assert the name is not already a
forward-map key, then set both maps. -/
def buildAux : List Entry → List (String × Descriptor) → List (Descriptor × String) →
    Except BuildError (List (String × Descriptor) × List (Descriptor × String))
  | [], ns, rv => .ok (ns, rv)
  | e :: rest, ns, rv =>
    match composeTypeName (e.2 ++ [e.1]) with
    | none => .error .malformedChain
    | some name =>
      if mapHas ns name then .error (.duplicateName name)
      else buildAux rest (mapSet ns name e.1) (mapSet rv e.1 name)

/-- `new TypeNameLookup(data)`. -/
def build (data : List Entry) : Except BuildError TypeNameLookup :=
  (buildAux data [] []).map (fun s => ⟨s.1, s.2⟩)

/-- JS `typeName.startsWith(".")`. -/
def startsWithDot (s : String) : Bool :=
  match s.data with
  | [] => false
  | c :: _ => c = '.'

/-- JS `typeName.substring(1)`: drop the first code unit. -/
def substringFromOne (s : String) : String :=
  String.mk (s.data.drop 1)

/-- `normalizeTypeName`: strip a leading period if present. -/
def normalizeTypeName (typeName : String) : String :=
  if startsWithDot typeName then substringFromOne typeName else typeName

/-- `resolveTypeName`: normalize, consult the forward map, assert the
result is defined. -/
def resolveTypeName (t : TypeNameLookup) (typeName : String) : Except LookupError Descriptor :=
  match mapGet t.names (normalizeTypeName typeName) with
  | some d => .ok d
  | none => .error (.unresolvedName (normalizeTypeName typeName))

/-- `peekTypeName`: normalize, consult the forward map, return the result
or `undefined`. -/
def peekTypeName (t : TypeNameLookup) (typeName : String) : Option Descriptor :=
  mapGet t.names (normalizeTypeName typeName)

/-- `makeTypeName`: consult the reverse map, assert the result is
defined (`none` models the `UnknownDescriptor` assert). -/
def makeTypeName (t : TypeNameLookup) (descriptor : Descriptor) : Option String :=
  mapGet t.reverse descriptor

/-- The climbing loop of `TypeNameLookup.from` (flat-list shape), as
written in the source: `let p = b(descriptor); while (p) {
ancestors.unshift(p); p = b(descriptor); }` — every iteration re-queries
the parent of the ORIGINAL descriptor.  `fuel` bounds the iteration
count; `none` means the loop is still running after `fuel` iterations,
so `(∀ fuel, … = none)` states non-termination. -/
def climbLoop (b : Descriptor → Option Descriptor) (descriptor : Descriptor) :
    Nat → List Descriptor → Option (List Descriptor)
  | 0, _ => none
  | fuel + 1, ancestors =>
    match b descriptor with
    | none => some ancestors
    | some p => climbLoop b descriptor fuel (p :: ancestors)

/-- Modelled from the spec: the intended climb follows `parentOf` from
the descriptor's immediate parent and then from each previously found
ancestor, prepending each visited ancestor, until `parentOf` returns
none (root-first result). -/
def climbSpec (b : Descriptor → Option Descriptor) :
    Nat → Descriptor → List Descriptor → Option (List Descriptor)
  | 0, _, _ => none
  | fuel + 1, d, ancestors =>
    match b d with
    | none => some ancestors
    | some p => climbSpec b fuel p (p :: ancestors)

/-- The flat-list branch of `TypeNameLookup.from`: iterate the list,
skip non-nameable descriptors, climb ancestors for each nameable one. -/
def fromData (b : Descriptor → Option Descriptor) :
    List Descriptor → Nat → Option (List Entry)
  | [], _ => some []
  | d :: ds, fuel =>
    if isAnyTypeDescriptorProto d then
      match climbLoop b d fuel [] with
      | none => none
      | some ancestors =>
        match fromData b ds fuel with
        | none => none
        | some rest => some ((d, ancestors) :: rest)
    else fromData b ds fuel

/-- `TypeNameLookup.from(descriptors, parentProvider)`: gather the
(descriptor, ancestors) pairs, then run the constructor.  The outer
`Option` is the fuel bound on the climbing loops. -/
def fromFlat (descriptors : List Descriptor) (b : Descriptor → Option Descriptor)
    (fuel : Nat) : Option (Except BuildError TypeNameLookup) :=
  (fromData b descriptors fuel).map build

/-! Concrete descriptors used by examples, counterexamples and witnesses.
Distinct `id`s model distinct JS objects. -/

def fileA : Descriptor := ⟨.file, some "a.proto", some "my_package", 0⟩

def msgMyMessage : Descriptor := ⟨.message, some "MyMessage", none, 1⟩

def msgMyNested : Descriptor := ⟨.message, some "MyNestedMessage", none, 2⟩

def fileEmptyPkg : Descriptor := ⟨.file, some "b.proto", some "", 3⟩

def msgTopLevel : Descriptor := ⟨.message, some "TopLevel", none, 4⟩

def fileDotPkg : Descriptor := ⟨.file, some "c.proto", some ".p", 5⟩

def msgDotFoo : Descriptor := ⟨.message, some ".Foo", none, 6⟩

/-- The table built from `[(msgDotFoo, [fileEmptyPkg])]`. -/
def tableDotFoo : TypeNameLookup := ⟨[(".Foo", msgDotFoo)], [(msgDotFoo, ".Foo")]⟩

def filePkgX : Descriptor := ⟨.file, some "x.proto", some "pkg", 7⟩

def filePkgY : Descriptor := ⟨.file, some "y.proto", some "pkg", 8⟩

def msgDupX : Descriptor := ⟨.message, some "Dup", none, 9⟩

def msgDupY : Descriptor := ⟨.message, some "Dup", none, 10⟩

def msgOuter : Descriptor := ⟨.message, some "Outer", none, 11⟩

def msgInner : Descriptor := ⟨.message, some "Inner", none, 12⟩

/-- A table holding one entry under a dot-free name. -/
def tablePkgDup : TypeNameLookup := ⟨[("pkg.Dup", msgDupX)], [(msgDupX, "pkg.Dup")]⟩

/-- A parent function: `msgMyMessage`'s parent is `fileA`, everything
else is a root. -/
def parentProviderA (d : Descriptor) : Option Descriptor :=
  if d.id = msgMyMessage.id then some fileA else none

/-! Helper lemmas about the map model. -/

theorem mapGet_cons {α β : Type} [DecidableEq α] (a : α) (b : β) (m : List (α × β)) (k : α) :
    mapGet ((a, b) :: m) k = if a = k then some b else mapGet m k := by
  by_cases h : a = k <;> simp [mapGet, List.find?_cons, h]

theorem mapGet_eq_some_mem {α β : Type} [DecidableEq α] {m : List (α × β)} {k : α} {v : β}
    (h : mapGet m k = some v) : (k, v) ∈ m := by
  induction m with
  | nil => simp [mapGet] at h
  | cons p m ih =>
    obtain ⟨a, b⟩ := p
    rw [mapGet_cons] at h
    by_cases hak : a = k
    · simp [hak] at h
      simp [hak, h]
    · simp [hak] at h
      exact List.mem_cons_of_mem _ (ih h)

theorem mapGet_isSome_of_mem {α β : Type} [DecidableEq α] {m : List (α × β)} {k : α} {v : β}
    (h : (k, v) ∈ m) : ∃ w, mapGet m k = some w := by
  induction m with
  | nil => simp at h
  | cons p m ih =>
    obtain ⟨a, b⟩ := p
    rw [mapGet_cons]
    by_cases hak : a = k
    · exact ⟨b, by simp [hak]⟩
    · rcases List.mem_cons.mp h with h1 | h1
      · exact absurd (congrArg Prod.fst h1).symm hak
      · simpa [hak] using ih h1

theorem mapGet_of_mem_of_nodup {α β : Type} [DecidableEq α] {m : List (α × β)} {k : α} {v : β}
    (hnd : (m.map Prod.fst).Pairwise (fun a b => a ≠ b)) (h : (k, v) ∈ m) :
    mapGet m k = some v := by
  induction m with
  | nil => simp at h
  | cons p m ih =>
    obtain ⟨a, b⟩ := p
    rw [List.map_cons, List.pairwise_cons] at hnd
    rw [mapGet_cons]
    rcases List.mem_cons.mp h with h1 | h1
    · have hk : k = a := congrArg Prod.fst h1
      have hv : v = b := congrArg Prod.snd h1
      simp [hk, hv]
    · have hak : a ≠ k := hnd.1 k (by simpa using ⟨v, h1⟩)
      simp [hak, ih hnd.2 h1]

/-- `normalizeTypeName` leaves a string without a leading period
unchanged. -/
theorem normalizeTypeName_of_no_dot {s : String} (h : startsWithDot s = false) :
    normalizeTypeName s = s := by
  simp [normalizeTypeName, h]

/-- A string beginning with two periods: the inputs on which
`normalizeTypeName` is not idempotent. -/
def startsWithTwoDots (s : String) : Bool :=
  startsWithDot s && startsWithDot (substringFromOne s)

/-- Claim C4 (counterexample): `normalizeTypeName` is not idempotent on
the string `".."` — one application yields `"."`, a second yields `""`. -/
theorem claimC4_counterexample :
    normalizeTypeName (normalizeTypeName "..") ≠ normalizeTypeName ".." := by
  decide

/-- Claim C4 (amended): `normalizeTypeName` is total (it is a function
defined on every string) and idempotent on every string that does not
begin with two periods: a single leading period is stripped and the
result then has no leading period. -/
theorem claimC4_normalize_idempotent (x : String) (h : startsWithTwoDots x = false) :
    normalizeTypeName (normalizeTypeName x) = normalizeTypeName x := by
  by_cases hd : startsWithDot x
  · have h2 : startsWithDot (substringFromOne x) = false := by
      simpa [startsWithTwoDots, hd] using h
    have h1 : normalizeTypeName x = substringFromOne x := by
      simp [normalizeTypeName, hd]
    rw [h1, normalizeTypeName_of_no_dot h2]
  · have hx : normalizeTypeName x = x := normalizeTypeName_of_no_dot (by simpa using hd)
    rw [hx]
    exact hx

/-- Claim C4 (witness): the amended idempotence at the concrete input
`".a"`. -/
theorem claimC4_witness :
    startsWithTwoDots ".a" = false ∧
    normalizeTypeName (normalizeTypeName ".a") = normalizeTypeName ".a" :=
  ⟨by decide, claimC4_normalize_idempotent ".a" (by decide)⟩

/-- Claim C5: on any table and any queried name, `peekTypeName` is absent
exactly when `resolveTypeName` fails with `UnresolvedName` (carrying the
normalized name), and otherwise both return the same descriptor. -/
theorem claimC5_peek_iff_resolve (t : TypeNameLookup) (n : String) :
    (peekTypeName t n = none ↔
      resolveTypeName t n = .error (.unresolvedName (normalizeTypeName n))) ∧
    (∀ d, peekTypeName t n = some d ↔ resolveTypeName t n = .ok d) := by
  unfold peekTypeName resolveTypeName
  cases h : mapGet t.names (normalizeTypeName n) <;> simp

/-- The name-collecting loop succeeds exactly when every item has a
defined local name. -/
theorem collectNames_isSome (l : List Descriptor) :
    (collectNames l).isSome = true ↔ ∀ d ∈ l, d.name.isSome = true := by
  induction l with
  | nil => simp [collectNames]
  | cons d ds ih =>
    cases hn : d.name with
    | none => simp [collectNames, hn]
    | some n =>
      cases hc : collectNames ds with
      | none =>
        have hds : ¬ ∀ x ∈ ds, x.name.isSome = true := fun hall => by
          have h2 := ih.mpr hall
          rw [hc] at h2
          simp at h2
        constructor
        · intro h
          simp [collectNames, hn, hc] at h
        · intro hall
          exact absurd (fun x hx => hall x (List.mem_cons_of_mem d hx)) hds
      | some ns =>
        have := ih
        rw [hc] at this
        simp [collectNames, hn, hc]
        intro d hd
        exact this.mp rfl d hd

/-- No descriptor is both a File and a nameable descriptor. -/
theorem not_file_and_nameable (d : Descriptor) :
    ¬(isFileDescriptorProto d = true ∧ isAnyTypeDescriptorProto d = true) := by
  rintro ⟨h1, h2⟩
  simp [isFileDescriptorProto] at h1
  simp [isAnyTypeDescriptorProto, h1] at h2

/-- Claim C7: `composeTypeName` succeeds exactly when the sequence is
non-empty, its first element is a File descriptor, its last element is a
nameable descriptor, and every element other than the first carries a
defined local name; it fails (`MalformedChain`) in every other case. -/
theorem claimC7_compose_success_iff (l : List Descriptor) :
    (composeTypeName l).isSome = true ↔
      (l ≠ [] ∧
       (∀ f, l.head? = some f → isFileDescriptorProto f = true) ∧
       (∀ d, l.getLast? = some d → isAnyTypeDescriptorProto d = true) ∧
       (∀ d ∈ l.tail, d.name.isSome = true)) := by
  cases l with
  | nil => simp [composeTypeName]
  | cons first rest =>
    cases rest with
    | nil =>
      simp [composeTypeName]
      intro hf
      cases hA : isAnyTypeDescriptorProto first with
      | false => rfl
      | true => exact absurd ⟨hf, hA⟩ (not_file_and_nameable first)
    | cons b bs =>
      have hne : (b :: bs) ≠ [] := by simp
      have hlast : (b :: bs).getLast? = some ((b :: bs).getLast hne) :=
        List.getLast?_eq_getLast _ hne
      have hrest : (b :: bs).dropLast ++ [(b :: bs).getLast hne] = b :: bs :=
        List.dropLast_append_getLast hne
      constructor
      · intro h
        simp only [composeTypeName, hlast, hrest] at h
        by_cases hf : isFileDescriptorProto first
        · by_cases ht : isAnyTypeDescriptorProto ((b :: bs).getLast hne)
          · refine ⟨by simp, ?_, ?_, ?_⟩
            · intro f hf2
              simp at hf2
              rw [← hf2]
              exact hf
            · intro d hd
              rw [List.getLast?_cons_cons, hlast] at hd
              simp at hd
              rw [← hd]
              exact ht
            · simp only [hf, ht, if_true] at h
              rw [← collectNames_isSome]
              cases hcoll : collectNames (b :: bs) with
              | none => rw [hcoll] at h; simp at h
              | some ns => simp [hcoll]
          · simp [hf, ht] at h
        · simp [hf] at h
      · rintro ⟨-, h2, h3, h4⟩
        have hf : isFileDescriptorProto first = true := h2 first rfl
        have ht : isAnyTypeDescriptorProto ((b :: bs).getLast hne) = true := by
          apply h3
          rw [List.getLast?_cons_cons, hlast]
        have hcoll : (collectNames (b :: bs)).isSome = true :=
          (collectNames_isSome _).mpr h4
        simp only [composeTypeName, hlast, hrest, hf, ht, if_true]
        cases hc : collectNames (b :: bs) with
        | none => rw [hc] at hcoll; simp at hcoll
        | some ns => simp

/-- Claim C6 (amended): on a well-formed chain, `composeTypeName` yields
the package (as first segment only when non-empty) followed by each
remaining element's local name, joined with `"."`; the join itself adds
no period, though the result can begin with one when the package or a
local name does. -/
theorem claimC6_compose_structure (f : Descriptor) (mids : List Descriptor) (t : Descriptor)
    (ns : List String)
    (hf : isFileDescriptorProto f = true) (ht : isAnyTypeDescriptorProto t = true)
    (hn : collectNames (mids ++ [t]) = some ns) :
    composeTypeName (f :: (mids ++ [t])) =
      some (String.intercalate "." (packageParts f ++ ns)) := by
  have hlast : (mids ++ [t]).getLast? = some t := by simp
  have hdrop : (mids ++ [t]).dropLast = mids := by simp
  simp only [composeTypeName, hlast, hdrop, hf, ht, if_true, hn]

/-- Claim C6 (counterexample): with package `".p"` the composed name
`".p.TopLevel"` begins with a period, refuting the unconditional
"no leading period" part of the claim. -/
theorem claimC6_counterexample :
    composeTypeName [fileDotPkg, msgTopLevel] = some ".p.TopLevel" ∧
    startsWithDot ".p.TopLevel" = true := by
  exact ⟨by decide, by decide⟩

/-- Claim C6 (witness): the two concrete compositions of the claim,
obtained from the amended structure theorem. -/
theorem claimC6_witness :
    composeTypeName [fileA, msgMyMessage, msgMyNested] =
      some "my_package.MyMessage.MyNestedMessage" ∧
    composeTypeName [fileEmptyPkg, msgTopLevel] = some "TopLevel" := by
  constructor
  · have h := claimC6_compose_structure fileA [msgMyMessage] msgMyNested
      ["MyMessage", "MyNestedMessage"] (by decide) (by decide) (by decide)
    exact h.trans (by decide)
  · have h := claimC6_compose_structure fileEmptyPkg [] msgTopLevel
      ["TopLevel"] (by decide) (by decide) (by decide)
    exact h.trans (by decide)

/-- Claim C9 (amended): for every string `x` without a leading period
that is a forward-map key, the leading-period form `"." ++ x` and `x`
both resolve to the same descriptor, because lookup normalizes before
consulting the forward map. -/
theorem claimC9_leading_period_equiv (t : TypeNameLookup) (x : String) (d : Descriptor)
    (hx : startsWithDot x = false) (hd : mapGet t.names x = some d) :
    resolveTypeName t ("." ++ x) = .ok d ∧ resolveTypeName t x = .ok d := by
  obtain ⟨l⟩ := x
  have hnorm1 : normalizeTypeName ("." ++ String.mk l) = String.mk l := by
    show normalizeTypeName (String.mk ('.' :: l)) = String.mk l
    simp [normalizeTypeName, startsWithDot, substringFromOne]
  have hnorm2 : normalizeTypeName (String.mk l) = String.mk l :=
    normalizeTypeName_of_no_dot hx
  constructor <;> simp [resolveTypeName, hnorm1, hnorm2, hd]

/-- Claim C9 (witness): the amended equivalence on a concrete table
holding `"pkg.Dup"`. -/
theorem claimC9_witness :
    startsWithDot "pkg.Dup" = false ∧
    mapGet tablePkgDup.names "pkg.Dup" = some msgDupX ∧
    (resolveTypeName tablePkgDup ("." ++ "pkg.Dup") = .ok msgDupX ∧
     resolveTypeName tablePkgDup "pkg.Dup" = .ok msgDupX) :=
  ⟨by decide, by decide,
    claimC9_leading_period_equiv tablePkgDup "pkg.Dup" msgDupX (by decide) (by decide)⟩

/-- Claim C9 (counterexample): the table built from a descriptor whose
local name is `".Foo"` holds the key `".Foo"`; resolving `"." ++ ".Foo"`
succeeds while resolving the table name `".Foo"` itself fails, so the two
forms do not return the same descriptor. -/
theorem claimC9_counterexample :
    build [(msgDotFoo, [fileEmptyPkg])] = .ok tableDotFoo ∧
    mapGet tableDotFoo.names ".Foo" = some msgDotFoo ∧
    resolveTypeName tableDotFoo ("." ++ ".Foo") = .ok msgDotFoo ∧
    resolveTypeName tableDotFoo ".Foo" = .error (.unresolvedName "Foo") := by
  exact ⟨by decide, by decide, by decide, by decide⟩

/-- If `b` gives `d` a parent, the source's climbing loop never finishes,
whatever the iteration budget: it re-queries `b(d)` forever. -/
theorem climbLoop_stuck (b : Descriptor → Option Descriptor) (d p : Descriptor)
    (hp : b d = some p) : ∀ fuel acc, climbLoop b d fuel acc = none := by
  intro fuel
  induction fuel with
  | zero => intro acc; rfl
  | succ n ih =>
    intro acc
    simp only [climbLoop, hp]
    exact ih _

/-- `TypeNameLookup.from([fileA, msgMyMessage], parentProviderA)` never
finishes: the only nameable descriptor has a parent, so its climb loop
runs forever. -/
theorem fromFlatA_diverges :
    ∀ fuel, fromFlat [fileA, msgMyMessage] parentProviderA fuel = none := by
  intro fuel
  have hp : parentProviderA msgMyMessage = some fileA := by decide
  have h1 : isAnyTypeDescriptorProto fileA = false := by decide
  have h2 : isAnyTypeDescriptorProto msgMyMessage = true := by decide
  have hstuck := climbLoop_stuck parentProviderA msgMyMessage fileA hp
  simp [fromFlat, fromData, h1, h2, hstuck]

/-- Claim C1 (code evaluation at the failing input): with
`parentOf(msgMyMessage) = fileA` and `parentOf(fileA) = none`, the claim
demands the chain `[fileA]` (as the spec-modelled climb produces), but
`TypeNameLookup.from` never finishes for any iteration budget — the loop
re-queries the parent of the original descriptor instead of advancing. -/
theorem claimC1_flat_ingestion_diverges :
    (∀ fuel, fromFlat [fileA, msgMyMessage] parentProviderA fuel = none) ∧
    climbSpec parentProviderA 2 msgMyMessage [] = some [fileA] :=
  ⟨fromFlatA_diverges, by decide⟩

/-- Claim C2 (code evaluation at the failing input): the parent relation
`msgMyMessage → fileA → none` is acyclic (it reaches `none` in one step),
yet `TypeNameLookup.from` does not terminate on it: for every iteration
budget the climb is still running, and no `MalformedChain` guard exists. -/
theorem claimC2_no_termination_on_acyclic :
    (parentProviderA msgMyMessage = some fileA ∧ parentProviderA fileA = none) ∧
    (∀ fuel, fromFlat [fileA, msgMyMessage] parentProviderA fuel = none) :=
  ⟨⟨by decide, by decide⟩, fromFlatA_diverges⟩

/-- The qualified name the constructor composes for one entry:
`composeTypeName([...ancestors, descriptor])`. -/
def entryName (e : Entry) : Option String :=
  composeTypeName (e.2 ++ [e.1])

/-- When every entry's composed name is defined, the composed names are
pairwise distinct, and none of them is already a forward-map key, the
constructor loop succeeds and the final maps are the initial maps
preceded by one binding per entry. -/
theorem buildAux_ok_of_distinct :
    ∀ (data : List Entry) (ns : List (String × Descriptor)) (rv : List (Descriptor × String)),
    (∀ e ∈ data, (entryName e).isSome = true) →
    ((data.map entryName).Pairwise (fun a b => a ≠ b)) →
    (∀ e ∈ data, mapGet ns ((entryName e).getD "") = none) →
    buildAux data ns rv =
      .ok ((data.map (fun e => ((entryName e).getD "", e.1))).reverse ++ ns,
           (data.map (fun e => (e.1, (entryName e).getD ""))).reverse ++ rv) := by
  intro data
  induction data with
  | nil =>
    intro ns rv _ _ _
    simp [buildAux]
  | cons e rest ih =>
    intro ns rv h1 h2 h3
    obtain ⟨n, hn⟩ := Option.isSome_iff_exists.mp (h1 e (by simp))
    have hfresh : mapGet ns n = none := by
      have h := h3 e (by simp)
      rw [hn] at h
      simpa using h
    have hce : composeTypeName (e.2 ++ [e.1]) = some n := hn
    have hhas : mapHas ns n = false := by simp [mapHas, hfresh]
    have h2' : (∀ y ∈ rest.map entryName, entryName e ≠ y) ∧
        (rest.map entryName).Pairwise (fun a b => a ≠ b) := by
      rw [List.map_cons, List.pairwise_cons] at h2
      exact h2
    simp only [buildAux, hce, hhas, Bool.false_eq_true, if_false]
    rw [ih (mapSet ns n e.1) (mapSet rv e.1 n)
      (fun e' he' => h1 e' (List.mem_cons_of_mem _ he'))
      h2'.2
      ?fresh]
    case fresh =>
      intro e' he'
      obtain ⟨n', hn'⟩ := Option.isSome_iff_exists.mp (h1 e' (List.mem_cons_of_mem _ he'))
      have hpair : entryName e ≠ entryName e' :=
        h2'.1 (entryName e') (List.mem_map_of_mem _ he')
      rw [hn, hn'] at hpair
      have hne : n ≠ n' := fun hc => hpair (by rw [hc])
      rw [hn']
      show mapGet ((n, e.1) :: ns) ((some n').getD "") = none
      rw [mapGet_cons]
      have h := h3 e' (List.mem_cons_of_mem _ he')
      rw [hn'] at h
      simpa [hne] using h
    simp [mapSet, hn, List.append_assoc]

/-- The constructor loop over a concatenation runs the first part and,
if it succeeds, continues with the second on the resulting maps. -/
theorem buildAux_append (xs ys : List Entry) :
    ∀ ns rv, buildAux (xs ++ ys) ns rv =
      match buildAux xs ns rv with
      | .ok s => buildAux ys s.1 s.2
      | .error err => .error err := by
  induction xs with
  | nil =>
    intro ns rv
    simp [buildAux]
  | cons e rest ih =>
    intro ns rv
    simp only [List.cons_append, buildAux]
    cases hce : composeTypeName (e.2 ++ [e.1]) with
    | none => simp
    | some n =>
      by_cases hh : mapHas ns n
      · simp [hh]
      · simp [hh, ih]

/-- Claim C3 (counterexample): a single descriptor whose local name is
`".Foo"` composes to the qualified name `".Foo"`; construction succeeds,
but `resolveTypeName(makeTypeName(d))` fails instead of returning `d`,
because lookup strips the leading period. -/
theorem claimC3_counterexample :
    build [(msgDotFoo, [fileEmptyPkg])] = .ok tableDotFoo ∧
    makeTypeName tableDotFoo msgDotFoo = some ".Foo" ∧
    resolveTypeName tableDotFoo ".Foo" = .error (.unresolvedName "Foo") :=
  ⟨by decide, by decide, by decide⟩

/-- Claim C3 (amended): for every entry set whose composed qualified
names are all defined, pairwise distinct, and free of a leading period,
construction succeeds and every participating descriptor `d` satisfies
`resolveTypeName(makeTypeName(d)) = d`. -/
theorem claimC3_roundtrip (data : List Entry)
    (h1 : ∀ e ∈ data, (entryName e).isSome = true)
    (h2 : (data.map entryName).Pairwise (fun a b => a ≠ b))
    (h3 : ∀ e ∈ data, startsWithDot ((entryName e).getD "") = false) :
    ∃ t, build data = .ok t ∧
      ∀ e ∈ data, ∃ n, makeTypeName t e.1 = some n ∧ resolveTypeName t n = .ok e.1 := by
  have hchar := buildAux_ok_of_distinct data [] [] h1 h2 (by intro e he; simp [mapGet])
  refine ⟨⟨(data.map (fun e => ((entryName e).getD "", e.1))).reverse,
          (data.map (fun e => (e.1, (entryName e).getD ""))).reverse⟩, ?_, ?_⟩
  · simp [build, hchar, Except.map]
  · intro e he
    have hmemrev : (e.1, (entryName e).getD "") ∈
        (data.map (fun e => (e.1, (entryName e).getD ""))).reverse := by
      rw [List.mem_reverse]
      exact List.mem_map_of_mem _ he
    obtain ⟨n, hy⟩ := mapGet_isSome_of_mem hmemrev
    refine ⟨n, hy, ?_⟩
    have hmem2 := mapGet_eq_some_mem hy
    rw [List.mem_reverse] at hmem2
    obtain ⟨e', he', heq⟩ := List.mem_map.mp hmem2
    have hd : e'.1 = e.1 := (Prod.ext_iff.mp heq).1
    have hnv : (entryName e').getD "" = n := (Prod.ext_iff.mp heq).2
    have hnd : startsWithDot n = false := hnv ▸ h3 e' he'
    have hmemf : (n, e.1) ∈ (data.map (fun e => ((entryName e).getD "", e.1))).reverse := by
      rw [List.mem_reverse]
      have h : ((entryName e').getD "", e'.1) ∈
          data.map (fun e => ((entryName e).getD "", e.1)) :=
        List.mem_map_of_mem _ he'
      rw [hnv, hd] at h
      exact h
    have hkeys : (((data.map (fun e => ((entryName e).getD "", e.1))).reverse).map
        Prod.fst).Pairwise (fun a b => a ≠ b) := by
      rw [List.map_reverse, List.pairwise_reverse, List.map_map]
      have hbase : data.Pairwise (fun a b => entryName a ≠ entryName b) :=
        List.pairwise_map.mp h2
      have hgd : data.Pairwise
          (fun a b => (entryName a).getD "" ≠ (entryName b).getD "") := by
        refine hbase.imp_of_mem ?_
        intro a b ha hb hne hc
        obtain ⟨na, hna⟩ := Option.isSome_iff_exists.mp (h1 a ha)
        obtain ⟨nb, hnb⟩ := Option.isSome_iff_exists.mp (h1 b hb)
        rw [hna, hnb] at hne hc
        simp at hc
        exact hne (by rw [hc])
      rw [List.pairwise_map]
      exact hgd.imp (fun h hc => h hc.symm)
    have hget := mapGet_of_mem_of_nodup hkeys hmemf
    simp [resolveTypeName, normalizeTypeName_of_no_dot hnd, hget]

/-- The concrete entry set of the end-to-end scenario: file `x.proto`
(package `pkg`) containing `Outer` containing `Inner`. -/
def c3data : List Entry := [(msgOuter, [filePkgX]), (msgInner, [filePkgX, msgOuter])]

/-- Claim C3 (witness): the amended round-trip at the concrete nested
two-message entry set. -/
theorem claimC3_witness :
    (∀ e ∈ c3data, (entryName e).isSome = true) ∧
    ((c3data.map entryName).Pairwise (fun a b => a ≠ b)) ∧
    (∀ e ∈ c3data, startsWithDot ((entryName e).getD "") = false) ∧
    (∃ t, build c3data = .ok t ∧
      ∀ e ∈ c3data, ∃ n, makeTypeName t e.1 = some n ∧ resolveTypeName t n = .ok e.1) :=
  ⟨by decide, by decide, by decide,
    claimC3_roundtrip c3data (by decide) (by decide) (by decide)⟩

/-- Claim C8 (counterexample): the constructor checks only
`!names.has(name)`, so even the SAME descriptor composing to the same
name twice aborts the build, where the claim predicts no failure. -/
theorem claimC8_counterexample :
    build [(msgDupX, [filePkgX]), (msgDupX, [filePkgX])] =
      .error (.duplicateName "pkg.Dup") := by
  decide

/-- Claim C8 (amended): construction aborts with a duplicate-name
failure, exposing no table, the first time a composed qualified name
already exists as a forward-map key — regardless of whether the earlier
key was set for the same or a different descriptor. -/
theorem claimC8_duplicate_aborts (pre : List Entry) (e : Entry) (rest : List Entry) (n : String)
    (h1 : ∀ x ∈ pre, (entryName x).isSome = true)
    (h2 : (pre.map entryName).Pairwise (fun a b => a ≠ b))
    (hn : entryName e = some n)
    (hdup : some n ∈ pre.map entryName) :
    build (pre ++ e :: rest) = .error (.duplicateName n) := by
  have hchar : buildAux pre [] [] =
      .ok ((pre.map (fun x => ((entryName x).getD "", x.1))).reverse,
           (pre.map (fun x => (x.1, (entryName x).getD ""))).reverse) := by
    rw [buildAux_ok_of_distinct pre [] [] h1 h2 (by intro x hx; simp [mapGet])]
    rw [List.append_nil, List.append_nil]
  have hce : composeTypeName (e.2 ++ [e.1]) = some n := hn
  have hhas : mapHas ((pre.map (fun x => ((entryName x).getD "", x.1))).reverse) n
      = true := by
    obtain ⟨x, hx, hxn⟩ := List.mem_map.mp hdup
    have hmem : (n, x.1) ∈ (pre.map (fun x => ((entryName x).getD "", x.1))).reverse := by
      rw [List.mem_reverse]
      have h : ((entryName x).getD "", x.1) ∈
          pre.map (fun x => ((entryName x).getD "", x.1)) :=
        List.mem_map_of_mem _ hx
      rw [hxn] at h
      exact h
    obtain ⟨w, hw⟩ := mapGet_isSome_of_mem hmem
    simp [mapHas, hw]
  rw [build, buildAux_append, hchar]
  simp only [buildAux, hce, hhas, if_true]
  simp [Except.map]

/-- The single-entry prefix of the duplicate scenario: file `x.proto`
(package `pkg`) declaring message `Dup`. -/
def c8pre : List Entry := [(msgDupX, [filePkgX])]

/-- Claim C8 (witness): two independent files each declaring a top-level
message `pkg.Dup` abort the build with `DuplicateName "pkg.Dup"`. -/
theorem claimC8_witness :
    (∀ x ∈ c8pre, (entryName x).isSome = true) ∧
    entryName (msgDupY, [filePkgY]) = some "pkg.Dup" ∧
    some "pkg.Dup" ∈ c8pre.map entryName ∧
    build (c8pre ++ [(msgDupY, [filePkgY])]) = .error (.duplicateName "pkg.Dup") :=
  ⟨by decide, by decide, by decide,
    claimC8_duplicate_aborts c8pre (msgDupY, [filePkgY]) [] "pkg.Dup"
      (by decide) (by decide) (by decide) (by decide)⟩

/-- A heap of JS arrays of descriptors: `mem` maps an address to an
array, addresses below `next` are allocated.  Used to state the frame
property of `composeTypeName` over explicit mutable state. -/
structure ArrHeap where
  mem : Nat → List Descriptor
  next : Nat

/-- Overwrite the array at address `r`. -/
def heapWrite (h : ArrHeap) (r : Nat) (l : List Descriptor) : ArrHeap :=
  ⟨fun i => if i = r then l else h.mem i, h.next⟩

/-- Allocate a fresh array (JS `concat()` produces a new array). -/
def heapAlloc (h : ArrHeap) (l : List Descriptor) : ArrHeap × Nat :=
  (⟨fun i => if i = h.next then l else h.mem i, h.next + 1⟩, h.next)

/-- The assert-and-join tail of `composeTypeName`, shared by the pure and
heap-level renderings: takes the values read for `first`, `last` and the
final `mid` array. -/
def composeChecks : Option Descriptor → Option Descriptor → List Descriptor → Option String
  | some first, some last, mid =>
    if isFileDescriptorProto first then
      if isAnyTypeDescriptorProto last then
        match collectNames (mid ++ [last]) with
        | none => none
        | some names => some (String.intercalate "." (packageParts first ++ names))
      else none
    else none
  | none, _, _ => none
  | some _, none, _ => none

/-- `composeTypeName` with the mutable arrays made explicit: the
argument array lives at address `r`; `mid = descriptors.concat()`
allocates a fresh array, and `shift`/`pop` write only to that fresh
address.  Returns the result together with the final heap. -/
def composeTypeNameHeap (h : ArrHeap) (r : Nat) : Option String × ArrHeap :=
  let descriptors := h.mem r
  if descriptors.length > 0 then
    let alloc := heapAlloc h descriptors
    let h1 := alloc.1
    let midRef := alloc.2
    let mid0 := h1.mem midRef
    let h2 := heapWrite h1 midRef mid0.tail
    let mid1 := h2.mem midRef
    let h3 := heapWrite h2 midRef mid1.dropLast
    (composeChecks mid0.head? mid1.getLast? (h3.mem midRef), h3)
  else (none, h)

/-- Claim C10: `composeTypeName` never modifies the array it is given:
whether it succeeds or fails, every previously allocated array — in
particular the argument array — is unchanged in the final heap, because
`shift` and `pop` act only on the freshly allocated copy; moreover the
result agrees with the pure rendering on the argument array's value. -/
theorem claimC10_compose_frame (h : ArrHeap) (r i : Nat) (hi : i < h.next) :
    (composeTypeNameHeap h r).2.mem i = h.mem i ∧
    (composeTypeNameHeap h r).1 = composeTypeName (h.mem r) := by
  have hne : i ≠ h.next := Nat.ne_of_lt hi
  by_cases hlen : (h.mem r).length > 0
  · cases harr : h.mem r with
    | nil => rw [harr] at hlen; simp at hlen
    | cons a rest =>
      constructor
      · simp [composeTypeNameHeap, harr, heapAlloc, heapWrite, hne]
      · simp only [composeTypeNameHeap, harr, heapAlloc, heapWrite]
        simp only [List.length_cons, gt_iff_lt, Nat.succ_pos, if_true, ite_true, if_pos rfl]
        cases hl : rest.getLast? with
        | none => simp [composeChecks, composeTypeName, hl]
        | some last => simp [composeChecks, composeTypeName, hl]
  · have harr : h.mem r = [] := by
      cases hx : h.mem r with
      | nil => rfl
      | cons a rest => rw [hx] at hlen; simp at hlen
    constructor
    · simp [composeTypeNameHeap, harr]
    · simp [composeTypeNameHeap, harr, composeTypeName]

/-- A concrete two-element heap for the frame witness. -/
def heapA : ArrHeap := ⟨fun _ => [fileA, msgMyMessage], 1⟩

/-- Claim C10 (witness): the frame property at a concrete heap and
address. -/
theorem claimC10_witness :
    0 < heapA.next ∧
    ((composeTypeNameHeap heapA 0).2.mem 0 = heapA.mem 0 ∧
     (composeTypeNameHeap heapA 0).1 = composeTypeName (heapA.mem 0)) :=
  ⟨by decide, claimC10_compose_frame heapA 0 0 (by decide)⟩
